import Mathlib

/-!
Shallow embedding of `arch_search_tf.py`, a differentiable-NAS supernet
training harness: `NasModel` (parameter partition and joint train step),
`MixedModuleTf` (mixture-of-operations layer), the temperature-schedule
callback and the genotype-watcher callback.

Conventions of the embedding:
* a tensor variable is identified by a numeric id standing for Python
  object identity (`v is p` becomes id equality);
* the mutable variable store is a function from ids to values, a value
  being the flattened list of the tensor's entries over `ℚ`;
* assertions and Python exceptions become `Option`: `none` is an abort;
* the stochastic relaxed-categorical sample of a forward pass is an
  oracle argument (the drawn weight matrix), since the embedding does not
  model the random number generator;
* automatic differentiation is an oracle `gradFn` giving, for the single
  recorded loss graph of a step, the gradient of the total loss with
  respect to each variable at the current store.
-/

namespace ArchSearch

/-- Python object identity of a tensor variable, modelled as a numeric id. -/
abbrev Variable := Nat

/-- The value held by a tensor variable: its entries flattened to a list. -/
abbrev Val := List ℚ

/-- The mutable store of tensor variables. -/
abbrev Store := Variable → Val

/-- The data of one discovered `MixedModuleTf` submodule, as seen by
`NasModel.compile` and the two callbacks: its `built` flag, the ids of its
`gumble_arch_params` and `gumbel_temperature` variables, and its
`op_names`. -/
structure MixedModuleRef where
  built : Bool
  gumble_arch_params : Variable
  gumbel_temperature : Variable
  op_names : List String
deriving DecidableEq

/-- The state of a `NasModel` before `compile`: the `MixedModuleTf`
instances found among `self.submodules` in traversal order, and
`self.trainable_variables` in collection order. -/
structure NasModel where
  mixed_submodules : List MixedModuleRef
  trainable_variables : List Variable
deriving DecidableEq

/-- The parameter partition produced by `NasModel.compile`. -/
structure CompiledNasModel where
  arch_params : List Variable
  non_arch_params : List Variable
  concat_params : List Variable
deriving DecidableEq

/-- `NasModel.compile` (src lines 18-39): collects each built
`MixedModuleTf`'s `gumble_arch_params` into `arch_params` (asserting
`mod.built`), filters `trainable_variables` by identity against that list
into `non_arch_params`, asserts
`len(trainable_variables) == len(arch_params) + len(non_arch_params)`,
and sets `concat_params = non_arch_params + arch_params`. -/
def NasModel.compile (m : NasModel) : Option CompiledNasModel :=
  if m.mixed_submodules.all (fun mod => mod.built) then
    let arch_params := m.mixed_submodules.map (fun mod => mod.gumble_arch_params)
    let non_arch_params := m.trainable_variables.filter
      (fun v => ! arch_params.any (fun p => v == p))
    if m.trainable_variables.length = arch_params.length + non_arch_params.length then
      some ⟨arch_params, non_arch_params, non_arch_params ++ arch_params⟩
    else none
  else none

/-- A Keras optimizer as the train step sees it: an application counter
(`optimizer.iterations`, incremented once per `apply_gradients` call) and
an opaque per-variable update rule taking the current value and the
gradient. -/
structure Optimizer where
  iterations : Nat
  rule : Val → Val → Val

/-- `optimizer.apply_gradients(zip(grads, vars))`: one optimizer
application; each listed variable is updated from its paired gradient by
the optimizer's rule, every other variable is untouched. -/
def Optimizer.apply_gradients (opt : Optimizer) (grads_and_vars : List (Val × Variable))
    (s : Store) : Optimizer × Store :=
  (⟨opt.iterations + 1, opt.rule⟩, fun v =>
    match grads_and_vars.find? (fun gv => gv.2 == v) with
    | some gv => opt.rule (s v) gv.1
    | none => s v)

/-- The observable outcome of one `NasModel.train_step`. -/
structure TrainStepResult where
  gradients : List Val
  non_arch_gradients : List Val
  arch_gradients : List Val
  optimizer : Optimizer
  arch_optimizer : Optimizer
  store : Store

/-- `NasModel.train_step` (src lines 41-74): one gradient computation
`tape.gradient(loss, self.concat_params)` for the whole step — modelled as
mapping the single step's gradient oracle `gradFn s` over `concat_params`
— then the split `gradients[0:len(non_arch_params)]` /
`gradients[len(non_arch_params):]`, then one `apply_gradients` call on
`self.optimizer` with the non-arch pairs and one on `self.arch_optimizer`
with the arch pairs. -/
def NasModel.train_step (c : CompiledNasModel) (gradFn : Store → Variable → Val)
    (optimizer arch_optimizer : Optimizer) (s : Store) : TrainStepResult :=
  let gradients := c.concat_params.map (gradFn s)
  let non_arch_gradients := gradients.take c.non_arch_params.length
  let arch_gradients := gradients.drop c.non_arch_params.length
  let applied := optimizer.apply_gradients (non_arch_gradients.zip c.non_arch_params) s
  let arch_applied := arch_optimizer.apply_gradients (arch_gradients.zip c.arch_params) applied.2
  ⟨gradients, non_arch_gradients, arch_gradients, applied.1, arch_applied.1, arch_applied.2⟩

/-- The `ops` argument of `MixedModuleTf.__init__`:
`Union[List[keras.layers.Layer], Dict[str, keras.layers.Layer]]`. A Python
`dict` is written as the association list of bindings in the order they
were produced; `dictOfPairs` applies Python's dict semantics to it. -/
inductive OpsArg (α : Type) where
  | ofList : List α → OpsArg α
  | ofDict : List (String × α) → OpsArg α

/-- Binding insertion with Python `dict` semantics: an existing key is
overwritten in place, a new key is appended. -/
def dictInsert (d : List (String × α)) (k : String) (v : α) : List (String × α) :=
  if d.any (fun p => p.1 == k) then
    d.map (fun p => if p.1 == k then (k, v) else p)
  else d ++ [(k, v)]

/-- The Python `dict` arising from a sequence of bindings: later bindings
with the same key silently overwrite earlier ones. -/
def dictOfPairs (pairs : List (String × α)) : List (String × α) :=
  pairs.foldl (fun d p => dictInsert d p.1 p.2) []

/-- A `MixedModuleTf` right after `__init__`: the `sublayer_<name>`
attributes set by `add_module`, `self.op_names = list(ops.keys())`, and
`self.cost_loss_multiplier`. -/
structure MixedModuleTf (α : Type) where
  modules : List (String × α)
  op_names : List String
  cost_loss_multiplier : ℚ

/-- `MixedModuleTf.__init__` (src lines 94-103): a list argument becomes
the dict `{str(i): op for i, op in enumerate(ops)}`; then
`assert len(ops) > 1` (the only validation), `add_module` per binding,
`self.op_names = list(ops.keys())`. -/
def MixedModuleTf.init (ops : OpsArg α) (cost_loss_multiplier : ℚ) :
    Option (MixedModuleTf α) :=
  let dict := match ops with
    | .ofList l => l.enum.map (fun p => (toString p.1, p.2))
    | .ofDict pairs => dictOfPairs pairs
  if dict.length > 1 then
    some ⟨dict, dict.map (fun p => p.1), cost_loss_multiplier⟩
  else none

/-- The `RelaxedOneHotCategorical` object constructed in
`MixedModuleTf.build`: it holds the `gumble_arch_params` and
`gumbel_temperature` variable objects themselves (src lines 126-129 pass
the variables, not copies of their values). -/
structure GumbelDist where
  logits_var : Variable
  temperature_var : Variable
deriving DecidableEq

/-- Modelled from the spec: the sampling-time parameter read of the
external `tfp.distributions.RelaxedOneHotCategorical` collaborator. §4.1
requires that "the distribution object itself must re-read the current
parameter values at sampling time, not snapshot them at construction", so
the logits and temperature a `sample` call uses are the store's current
values at the two variable ids the distribution holds. -/
def GumbelDist.sample_params (d : GumbelDist) (s : Store) : Val × Val :=
  (s d.logits_var, s d.temperature_var)

/-- A `MixedModuleTf` after `build`: the ids of its three variables and
its distribution object. -/
structure BuiltMixedModule where
  op_names : List String
  cost_loss_multiplier : ℚ
  gumbel_temperature : Variable
  ops_cost_static : Variable
  gumble_arch_params : Variable
  gumbel_dist : GumbelDist
deriving DecidableEq

/-- `MixedModuleTf.build` (src lines 105-140): allocates
`gumbel_temperature` (scalar, initializer 1, trainable=False),
`ops_cost_static` (shape `(1, n)`, initializer 0, trainable=False) and
`gumble_arch_params` (shape `(n)`, initializer 1, trainable=True) as fresh
variables; constructs the relaxed-categorical distribution holding the
arch-params and temperature variables; builds every candidate op against
`input_shape`; then for each op index `i` assigns
`get_flops_inputs(op, [1] + list(input_shape[1:]))` into
`ops_cost_static[0, i]`, so after the loop the cost row holds exactly one
profiler value per op at that op's index. The FLOPs profiler
`get_flops_inputs`, an external collaborator that depends only on the op
and the shape, is the oracle `flops`. -/
def MixedModuleTf.build (m : MixedModuleTf α) (flops : String → List Nat → ℚ)
    (input_shape : List Nat) (fresh : Variable) (s : Store) : BuiltMixedModule × Store :=
  let tempVar := fresh
  let costVar := fresh + 1
  let prefVar := fresh + 2
  let s1 : Store := fun v =>
    if v = prefVar then List.replicate m.op_names.length 1
    else if v = costVar then m.op_names.map (fun name => flops name (1 :: input_shape.tail))
    else if v = tempVar then [1]
    else s v
  (⟨m.op_names, m.cost_loss_multiplier, tempVar, costVar, prefVar, ⟨prefVar, tempVar⟩⟩, s1)

/-- A rank-2 tensor: the batch axis outermost, all remaining axes
flattened into one row per example. -/
abbrev Tensor2 := List (List ℚ)

/-- `tf.math.reduce_sum(..., axis=1)` on one example's stack of per-op
rows: the elementwise sum of the rows. -/
def sumRows : List (List ℚ) → List ℚ
  | [] => []
  | [r] => r
  | r :: rs => List.zipWith (fun x y => x + y) r (sumRows rs)

/-- `tf.reduce_mean` of a rank-1 tensor. -/
def listMean (l : List ℚ) : ℚ := l.sum / l.length

/-- `MixedModuleTf.call` (src lines 153-175): samples a `(B, n)` weight
matrix (the oracle argument `gumbel_weights`, drawn with
`batch_size = tf.shape(inp)[0]`); evaluates every op on the full input;
stacks the op outputs on axis 1, so `concat_outputs[b][i] = outputs[i][b]`;
reshapes the weights to `(B, n, 1, ..., 1)` and multiplies, which scales
each op row of each example by that example's weight for that op
(broadcast across all remaining dims, flattened here into the row); sums
over the op axis. The cost term `ops_cost_static * gumbel_weights`
broadcasts the `(1, n)` static row against the `(B, n)` weights, is scaled
by `cost_loss_multiplier`, summed over axis 1 and averaged by
`reduce_mean`; the result is passed to `self.add_loss` (registered, not
returned as output), so `call` returns the pair (output, registered cost
loss). -/
def MixedModuleTf.call (op_names : List String) (op_fun : String → Tensor2 → Tensor2)
    (ops_cost_static : List ℚ) (cost_loss_multiplier : ℚ)
    (gumbel_weights : List (List ℚ)) (inp : Tensor2) : Tensor2 × ℚ :=
  let outputs := op_names.map (fun name => op_fun name inp)
  let batch_size := inp.length
  let concat_outputs := (List.range batch_size).map (fun b => outputs.map (fun t => t.getD b []))
  let weighted_outputs := List.zipWith
    (fun wrow rows => List.zipWith (fun wi row => row.map (fun x => wi * x)) wrow rows)
    gumbel_weights concat_outputs
  let output := weighted_outputs.map sumRows
  let cost := gumbel_weights.map (fun wrow => List.zipWith (fun c wi => c * wi) ops_cost_static wrow)
  let cost_loss := listMean (cost.map (fun row => (row.map (fun x => x * cost_loss_multiplier)).sum))
  (output, cost_loss)

/-- `SupernetTemperatureCallback` state after `__init__`. -/
structure SupernetTemperatureCallback where
  temperature_variables : List Variable
  start_epoch : ℤ
  final_epoch : ℤ
  start_temp : ℚ
  end_temp : ℚ
deriving DecidableEq

/-- `SupernetTemperatureCallback.__init__` (src lines 200-215): collects
each discovered `MixedModuleTf`'s `gumbel_temperature` (asserting
`mod.built`), stores the four schedule parameters, and asserts
`self.start_temp > self.end_temp` — nothing else is validated; in
particular `final_epoch == start_epoch` is accepted. -/
def SupernetTemperatureCallback.init (m : NasModel) (start_epoch final_epoch : ℤ)
    (start_temp end_temp : ℚ) : Option SupernetTemperatureCallback :=
  if m.mixed_submodules.all (fun mod => mod.built) then
    if start_temp > end_temp then
      some ⟨m.mixed_submodules.map (fun mod => mod.gumbel_temperature),
        start_epoch, final_epoch, start_temp, end_temp⟩
    else none
  else none

/-- `SupernetTemperatureCallback.on_epoch_begin` (src lines 217-225):
`delta_temp = (end_temp - start_temp) / (final_epoch - start_epoch)`,
which raises `ZeroDivisionError` (modelled `none`) when
`final_epoch == start_epoch`; otherwise
`temperature = max(start_temp + delta_temp * max(epoch - start_epoch, 0), end_temp)`
is assigned to every discovered temperature variable. Returns the
computed temperature and the updated store. -/
def SupernetTemperatureCallback.on_epoch_begin (cb : SupernetTemperatureCallback)
    (epoch : ℤ) (s : Store) : Option (ℚ × Store) :=
  if cb.final_epoch - cb.start_epoch = 0 then none
  else
    let delta_temp := (cb.end_temp - cb.start_temp) / ((cb.final_epoch - cb.start_epoch : ℤ) : ℚ)
    let temperature :=
      max (cb.start_temp + delta_temp * ((max (epoch - cb.start_epoch) 0 : ℤ) : ℚ)) cb.end_temp
    some (temperature,
      fun v => if v ∈ cb.temperature_variables then [temperature] else s v)

/-- The closed-form temperature of the schedule at epoch `epoch`, as the
spec states it:
`max(start_temp + ((end_temp - start_temp) / (final_epoch - start_epoch)) * max(epoch - start_epoch, 0), end_temp)`.
The theorems relate `on_epoch_begin` to this formula. -/
def SupernetTemperatureCallback.temperature_at (cb : SupernetTemperatureCallback)
    (epoch : ℤ) : ℚ :=
  max (cb.start_temp
      + (cb.end_temp - cb.start_temp) / ((cb.final_epoch - cb.start_epoch : ℤ) : ℚ)
        * ((max (epoch - cb.start_epoch) 0 : ℤ) : ℚ))
    cb.end_temp

/-- `SupernetArchWatcherCallback` state after `__init__` (src lines
179-187): the discovered `gumble_arch_params` ids and each layer's
`op_names`, in discovery order. -/
structure SupernetArchWatcherCallback where
  gumbel_arch_params : List Variable
  op_names : List (List String)

/-- `SupernetArchWatcherCallback.__init__`: discovers each
`MixedModuleTf` (asserting `mod.built`) and caches its arch-params
variable and op names. -/
def SupernetArchWatcherCallback.init (m : NasModel) : Option SupernetArchWatcherCallback :=
  if m.mixed_submodules.all (fun mod => mod.built) then
    some ⟨m.mixed_submodules.map (fun mod => mod.gumble_arch_params),
      m.mixed_submodules.map (fun mod => mod.op_names)⟩
  else none

/-- `tf.nn.softmax` on a rank-1 tensor. -/
noncomputable def softmax (l : List ℝ) : List ℝ :=
  l.map (fun x => Real.exp x / (l.map Real.exp).sum)

/-- `SupernetArchWatcherCallback.on_epoch_end` (src lines 189-197): for
each cached layer, `probs = tf.nn.softmax(params)` on the current
preference vector and `gene[name] = probs[i]` for `i, name` in
`enumerate(names)`; the genotype is printed tagged with the epoch. The
hook only reads the store, so it returns the report and the unchanged
store. -/
noncomputable def SupernetArchWatcherCallback.on_epoch_end (w : SupernetArchWatcherCallback)
    (epoch : ℕ) (s : Store) : (ℕ × List (List (String × ℝ))) × Store :=
  ((epoch, (w.op_names.zip w.gumbel_arch_params).map (fun lay =>
      let probs := softmax ((s lay.2).map (fun q => (Rat.cast q : ℝ)))
      lay.1.enum.map (fun p => (p.2, probs.getD p.1 0)))), s)

/-- One post-compile training-loop event touching the variable store: a
`MixedModuleTf` forward pass (which assigns no variable — it only reads
them and registers a loss value) or a `NasModel.train_step` with that
step's gradient oracle. -/
inductive SupernetOp where
  | forward
  | step (gradFn : Store → Variable → Val)

/-- The training state threaded through a run: the two optimizers and the
variable store. -/
structure TrainingState where
  optimizer : Optimizer
  arch_optimizer : Optimizer
  store : Store

/-- Executes one training-loop event. -/
def runOp (c : CompiledNasModel) (st : TrainingState) : SupernetOp → TrainingState
  | .forward => st
  | .step gradFn =>
      let r := NasModel.train_step c gradFn st.optimizer st.arch_optimizer st.store
      ⟨r.optimizer, r.arch_optimizer, r.store⟩

/-- Executes a sequence of training-loop events. -/
def runOps (c : CompiledNasModel) (st : TrainingState) (ops : List SupernetOp) : TrainingState :=
  ops.foldl (runOp c) st

/-- A concrete two-mixture model used to instantiate the theorems. -/
def exMixed1 : MixedModuleRef := ⟨true, 10, 20, ["a", "b"]⟩

/-- A second concrete mixture layer. -/
def exMixed2 : MixedModuleRef := ⟨true, 11, 21, ["c", "d", "e"]⟩

/-- A concrete supernet with two ordinary trainable variables `0, 1` and
the two preference vectors `10, 11`. -/
def exModel : NasModel := ⟨[exMixed1, exMixed2], [0, 1, 10, 11]⟩

/-- A concrete store: variable `v` holds the one-entry value `[v]`. -/
def exStore : Store := fun v => [(v : ℚ)]

/-- A concrete primary optimizer: plain gradient descent, counter 0. -/
def exOptimizer : Optimizer := ⟨0, fun p g => List.zipWith (fun a b => a - b) p g⟩

/-- A concrete architecture optimizer with its own rule and counter. -/
def exArchOptimizer : Optimizer := ⟨7, fun p g => List.zipWith (fun a b => a - b / 2) p g⟩

/-- A concrete gradient oracle. -/
def exGradFn : Store → Variable → Val := fun _ v => [(v : ℚ)]

/-- The partition `compile` produces on `exModel`. -/
def exCompiled : CompiledNasModel := ⟨[10, 11], [0, 1], [0, 1, 10, 11]⟩

/-- A concrete two-op mixture layer as `__init__` leaves it. -/
def exMixedModule : MixedModuleTf Nat := ⟨[("a", 0), ("b", 1)], ["a", "b"], 1⟩

/-- A concrete FLOPs oracle: the product of the shape entries. -/
def exFlops : String → List Nat → ℚ :=
  fun _ shape => ((shape.foldl (fun a b => a * b) 1 : ℕ) : ℚ)

/-- A concrete training state. -/
def exTrainState : TrainingState := ⟨exOptimizer, exArchOptimizer, exStore⟩

/-- The schedule callback `init` produces on `exModel` with
`start_epoch=5, final_epoch=15, start_temp=5, end_temp=0.1`. -/
def cb5 : SupernetTemperatureCallback := ⟨[20, 21], 5, 15, 5, 1/10⟩

/-- The degenerate callback `init` accepts with
`final_epoch == start_epoch`. -/
def exDegenerateCb : SupernetTemperatureCallback := ⟨[20, 21], 3, 3, 5, 1/10⟩

/-- A binding list with a duplicated operation name. -/
def exDupPairs : List (String × Nat) := [("a", 1), ("a", 2), ("b", 3)]

/-- A concrete watcher over one layer whose preference variable is `22`. -/
def exWatcher : SupernetArchWatcherCallback := ⟨[22], [["x", "y"]]⟩

/-- A store giving preference vector `[1, 2]` to variable `22`. -/
def exStore2 : Store := fun v => if v = 22 then [1, 2] else []

/-- Concrete candidate operations for the forward-pass theorems:
`"a"` doubles every entry, any other op triples it. -/
def exOpFun : String → Tensor2 → Tensor2 := fun name t =>
  if name = "a" then t.map (fun row => row.map (fun x => 2 * x))
  else t.map (fun row => row.map (fun x => 3 * x))

/-- Unfolding of a successful `NasModel.compile`: the values of the four
collections it builds and the length assertion it checked. -/
theorem compile_eq_some {m : NasModel} {c : CompiledNasModel} (h : m.compile = some c) :
    m.mixed_submodules.all (fun mod => mod.built) = true
    ∧ c.arch_params = m.mixed_submodules.map (fun mod => mod.gumble_arch_params)
    ∧ c.non_arch_params = m.trainable_variables.filter
        (fun v => ! (m.mixed_submodules.map (fun mod => mod.gumble_arch_params)).any
          (fun p => v == p))
    ∧ c.concat_params = c.non_arch_params ++ c.arch_params
    ∧ m.trainable_variables.length = c.arch_params.length + c.non_arch_params.length := by
  simp only [NasModel.compile] at h
  split at h
  · split at h
    · cases h
      exact ⟨by assumption, rfl, rfl, rfl, by assumption⟩
    · cases h
  · cases h

/-- C2: after `compile` on a finalized model, `arch_params` is exactly the
list of discovered preference vectors, `non_arch_params` holds precisely
the other trainable variables (the two lists are disjoint by identity),
the length assertion relating the two lists to the full trainable set
holds on success, and `compile` aborts when the combined size differs
from the trainable count. -/
theorem compile_partitions_trainables :
    (∀ (m : NasModel) (c : CompiledNasModel), m.compile = some c →
      c.arch_params = m.mixed_submodules.map (fun mod => mod.gumble_arch_params)
      ∧ (∀ v, v ∈ c.non_arch_params ↔ v ∈ m.trainable_variables ∧ v ∉ c.arch_params)
      ∧ (∀ v ∈ c.arch_params, v ∉ c.non_arch_params)
      ∧ m.trainable_variables.length = c.arch_params.length + c.non_arch_params.length)
    ∧ (∀ m : NasModel, m.mixed_submodules.all (fun mod => mod.built) = true →
        m.trainable_variables.length ≠
          (m.mixed_submodules.map (fun mod => mod.gumble_arch_params)).length
            + (m.trainable_variables.filter (fun v =>
                ! (m.mixed_submodules.map (fun mod => mod.gumble_arch_params)).any
                  (fun p => v == p))).length →
        m.compile = none) := by
  constructor
  · intro m c h
    obtain ⟨hb, ha, hn, hcat, hlen⟩ := compile_eq_some h
    have hmem : ∀ v, v ∈ c.non_arch_params ↔ v ∈ m.trainable_variables ∧ v ∉ c.arch_params := by
      intro v
      simp only [hn, ha, List.mem_filter, Bool.not_eq_true', List.any_eq_false, beq_iff_eq]
      constructor
      · rintro ⟨h1, h2⟩
        exact ⟨h1, fun hv => h2 v hv rfl⟩
      · rintro ⟨h1, h2⟩
        exact ⟨h1, fun p hp he => h2 (he ▸ hp)⟩
    refine ⟨ha, hmem, ?_, hlen⟩
    intro v hv hvn
    exact ((hmem v).1 hvn).2 hv
  · intro m hb hne
    simp only [NasModel.compile]
    rw [if_pos hb, if_neg hne]

/-- C5: the scheduler discovers every mixture layer's temperature
variable; on each epoch, `on_epoch_begin` computes exactly the clamped
linear-interpolation temperature and assigns it to every discovered
temperature variable; epochs at or before `start_epoch` give
`start_temp` and epochs at or after `final_epoch` give `end_temp`. -/
theorem temperature_schedule_correct :
    (∀ (m : NasModel) (se fe : ℤ) (st en : ℚ) (cb : SupernetTemperatureCallback),
        SupernetTemperatureCallback.init m se fe st en = some cb →
        cb.temperature_variables = m.mixed_submodules.map (fun mod => mod.gumbel_temperature))
    ∧ (∀ (cb : SupernetTemperatureCallback) (epoch : ℤ) (s : Store),
        cb.start_epoch < cb.final_epoch → cb.end_temp < cb.start_temp →
        cb.on_epoch_begin epoch s
            = some (cb.temperature_at epoch,
                fun v => if v ∈ cb.temperature_variables then [cb.temperature_at epoch] else s v)
          ∧ (epoch ≤ cb.start_epoch → cb.temperature_at epoch = cb.start_temp)
          ∧ (cb.final_epoch ≤ epoch → cb.temperature_at epoch = cb.end_temp)) := by
  constructor
  · intro m se fe st en cb h
    simp only [SupernetTemperatureCallback.init] at h
    split at h
    · split at h
      · cases h
        rfl
      · cases h
    · cases h
  · intro cb epoch s hlt htemp
    have hne : ¬ (cb.final_epoch - cb.start_epoch = 0) := by omega
    refine ⟨?_, ?_, ?_⟩
    · simp only [SupernetTemperatureCallback.on_epoch_begin, if_neg hne,
        SupernetTemperatureCallback.temperature_at]
    · intro hle
      have h0 : max (epoch - cb.start_epoch) 0 = 0 := by omega
      simp only [SupernetTemperatureCallback.temperature_at, h0]
      push_cast
      rw [mul_zero, add_zero]
      exact max_eq_left htemp.le
    · intro hge
      have h0 : max (epoch - cb.start_epoch) 0 = epoch - cb.start_epoch := by omega
      have hD : (0 : ℚ) < ((cb.final_epoch - cb.start_epoch : ℤ) : ℚ) := by
        exact_mod_cast sub_pos.2 hlt
      have hx : ((cb.final_epoch - cb.start_epoch : ℤ) : ℚ)
          ≤ ((epoch - cb.start_epoch : ℤ) : ℚ) := by
        exact_mod_cast sub_le_sub_right hge cb.start_epoch
      have hd : cb.end_temp - cb.start_temp < 0 := sub_neg.2 htemp
      simp only [SupernetTemperatureCallback.temperature_at, h0]
      apply max_eq_right
      rw [div_mul_eq_mul_div]
      have key : (cb.end_temp - cb.start_temp) * ((epoch - cb.start_epoch : ℤ) : ℚ)
          / ((cb.final_epoch - cb.start_epoch : ℤ) : ℚ) ≤ cb.end_temp - cb.start_temp := by
        rw [div_le_iff₀ hD]
        exact mul_le_mul_of_nonpos_left hx hd.le
      linarith [key]

/-- C10: `SupernetTemperatureCallback.__init__` validates only the built
flags and `start_temp > end_temp`, accepting
`final_epoch == start_epoch`; in that degenerate case every
`on_epoch_begin` call divides by zero
(`(end_temp - start_temp) / (final_epoch - start_epoch)` with a zero
denominator raises `ZeroDivisionError`), so the epoch hook fails at every
epoch although construction succeeded. -/
theorem schedule_degenerate_division :
    (∀ (m : NasModel) (se fe : ℤ) (st en : ℚ),
        (SupernetTemperatureCallback.init m se fe st en).isSome = true
          ↔ (m.mixed_submodules.all (fun mod => mod.built) = true ∧ en < st))
    ∧ (∀ (m : NasModel) (se : ℤ) (st en : ℚ) (cb : SupernetTemperatureCallback),
        SupernetTemperatureCallback.init m se se st en = some cb →
        ∀ (epoch : ℤ) (s : Store), cb.on_epoch_begin epoch s = none) := by
  constructor
  · intro m se fe st en
    simp only [SupernetTemperatureCallback.init]
    split
    · split
      · simp_all [gt_iff_lt]
      · simp_all [gt_iff_lt]
    · simp_all
  · intro m se st en cb h epoch s
    have hfe : cb.final_epoch = cb.start_epoch := by
      simp only [SupernetTemperatureCallback.init] at h
      split at h
      · split at h
        · cases h
          rfl
        · cases h
      · cases h
    simp [SupernetTemperatureCallback.on_epoch_begin, hfe]

/-- C8 counterexample: construction does not fail on non-unique
operation names — with the bindings `{"a": op1, "a": op2, "b": op3}`
(duplicate name `"a"`), Python dict semantics collapse the duplicate, the
resulting dict has 2 entries, `assert len(ops) > 1` passes and
`__init__` succeeds. -/
theorem mixture_init_duplicate_names_accepted :
    (MixedModuleTf.init (OpsArg.ofDict exDupPairs) 0).isSome = true
    ∧ ¬ (exDupPairs.map Prod.fst).Nodup := by
  exact ⟨by decide, by decide⟩

/-- Looking up a variable in a gradient/variable zip whose gradients were
produced by mapping `f` over the variables: the first hit pairs the
variable with its own gradient. -/
theorem find?_zip_map_self (f : Variable → Val) (l : List Variable) (v : Variable)
    (hv : v ∈ l) :
    ((l.map f).zip l).find? (fun gv => gv.2 == v) = some (f v, v) := by
  induction l with
  | nil => cases hv
  | cons w ws ih =>
    rw [List.map_cons, List.zip_cons_cons]
    by_cases h : w = v
    · subst h
      exact List.find?_cons_of_pos _ (by simp)
    · rw [List.find?_cons_of_neg _ (by simp [h])]
      refine ih ?_
      cases hv with
      | head => exact absurd rfl h
      | tail _ h' => exact h'

/-- `apply_gradients` updates each listed variable from its own gradient
when the gradient list is the image of the variable list. -/
theorem apply_gradients_at_listed (opt : Optimizer) (f : Variable → Val)
    (l : List Variable) (s : Store) (v : Variable) (hv : v ∈ l) :
    (opt.apply_gradients ((l.map f).zip l) s).2 v = opt.rule (s v) (f v) := by
  simp only [Optimizer.apply_gradients]
  rw [find?_zip_map_self f l v hv]

/-- `apply_gradients` leaves every variable that is not in the pair list
untouched. -/
theorem apply_gradients_at_unlisted (opt : Optimizer) (gvs : List (Val × Variable))
    (s : Store) (v : Variable) (hv : ∀ gv ∈ gvs, gv.2 ≠ v) :
    (opt.apply_gradients gvs s).2 v = s v := by
  simp only [Optimizer.apply_gradients]
  rw [List.find?_eq_none.2 (by intro gv h; simpa using hv gv h)]

/-- C1: one `train_step` computes the gradient list by one
differentiation over `concat_params = non_arch_params ++ arch_params` in
that fixed order, splits it at `len(non_arch_params)` into segments that
pair positionally with the two parameter lists, applies the primary
optimizer once to the non-arch parameters and the arch optimizer once to
the arch parameters — each counter advancing by exactly 1 and each
parameter receiving its own optimizer's update from its own gradient. -/
theorem train_step_gradient_routing (m : NasModel) (c : CompiledNasModel)
    (h : m.compile = some c) (gradFn : Store → Variable → Val)
    (opt aopt : Optimizer) (s : Store) :
    (NasModel.train_step c gradFn opt aopt s).gradients
        = (c.non_arch_params ++ c.arch_params).map (gradFn s)
    ∧ (NasModel.train_step c gradFn opt aopt s).non_arch_gradients
        = c.non_arch_params.map (gradFn s)
    ∧ (NasModel.train_step c gradFn opt aopt s).arch_gradients
        = c.arch_params.map (gradFn s)
    ∧ (NasModel.train_step c gradFn opt aopt s).optimizer.iterations = opt.iterations + 1
    ∧ (NasModel.train_step c gradFn opt aopt s).arch_optimizer.iterations = aopt.iterations + 1
    ∧ (∀ v ∈ c.non_arch_params,
        (NasModel.train_step c gradFn opt aopt s).store v = opt.rule (s v) (gradFn s v))
    ∧ (∀ v ∈ c.arch_params,
        (NasModel.train_step c gradFn opt aopt s).store v = aopt.rule (s v) (gradFn s v)) := by
  obtain ⟨hb, ha, hn, hcat, hlen⟩ := compile_eq_some h
  have hdisj : ∀ v ∈ c.non_arch_params, v ∉ c.arch_params := by
    intro v hv
    rw [hn] at hv
    rw [List.mem_filter] at hv
    obtain ⟨h1, h2⟩ := hv
    simp only [Bool.not_eq_true', List.any_eq_false, beq_iff_eq] at h2
    rw [ha]
    exact fun hv' => h2 v hv' rfl
  have hgrad : (NasModel.train_step c gradFn opt aopt s).gradients
      = (c.non_arch_params ++ c.arch_params).map (gradFn s) := by
    simp only [NasModel.train_step]
    rw [hcat]
  have hnon : (NasModel.train_step c gradFn opt aopt s).non_arch_gradients
      = c.non_arch_params.map (gradFn s) := by
    simp only [NasModel.train_step]
    rw [hcat, List.map_append, ← List.length_map c.non_arch_params (gradFn s),
      List.take_left]
  have harch : (NasModel.train_step c gradFn opt aopt s).arch_gradients
      = c.arch_params.map (gradFn s) := by
    simp only [NasModel.train_step]
    rw [hcat, List.map_append, ← List.length_map c.non_arch_params (gradFn s),
      List.drop_left]
  have hstore : (NasModel.train_step c gradFn opt aopt s).store
      = (aopt.apply_gradients ((c.arch_params.map (gradFn s)).zip c.arch_params)
          (opt.apply_gradients ((c.non_arch_params.map (gradFn s)).zip c.non_arch_params)
            s).2).2 := by
    have e1 : (c.concat_params.map (gradFn s)).take c.non_arch_params.length
        = c.non_arch_params.map (gradFn s) := by
      rw [hcat, List.map_append, ← List.length_map c.non_arch_params (gradFn s),
        List.take_left]
    have e2 : (c.concat_params.map (gradFn s)).drop c.non_arch_params.length
        = c.arch_params.map (gradFn s) := by
      rw [hcat, List.map_append, ← List.length_map c.non_arch_params (gradFn s),
        List.drop_left]
    simp only [NasModel.train_step]
    rw [e1, e2]
  refine ⟨hgrad, hnon, harch, rfl, rfl, ?_, ?_⟩
  · intro v hv
    rw [hstore]
    rw [apply_gradients_at_unlisted]
    · exact apply_gradients_at_listed opt (gradFn s) c.non_arch_params s v hv
    · intro gv hgv he
      exact hdisj v hv (he ▸ (List.of_mem_zip hgv).2)
  · intro v hv
    rw [hstore]
    rw [apply_gradients_at_listed aopt (gradFn s) c.arch_params _ v hv]
    rw [apply_gradients_at_unlisted]
    intro gv hgv he
    have hvnon : v ∈ c.non_arch_params := he ▸ (List.of_mem_zip hgv).2
    exact hdisj v hvnon hv

/-- C6: the distribution object built once at `build` holds the layer's
mutable preference-vector and temperature variables themselves, so its
sampling-time parameters are always the store's current values: after
the temperature callback assigns a new temperature the next sample uses
exactly that value (and no longer the build-time snapshot `[1]` when the
new temperature differs from 1), and likewise any store update to the
preference vector is what sampling reads. -/
theorem gumbel_dist_reads_current_values {α : Type} (m : MixedModuleTf α)
    (flops : String → List Nat → ℚ) (input_shape : List Nat) (fresh : Variable)
    (s0 : Store) (bm : BuiltMixedModule) (s1 : Store)
    (hb : m.build flops input_shape fresh s0 = (bm, s1)) :
    bm.gumbel_dist = ⟨bm.gumble_arch_params, bm.gumbel_temperature⟩
    ∧ (∀ s : Store, bm.gumbel_dist.sample_params s
        = (s bm.gumble_arch_params, s bm.gumbel_temperature))
    ∧ s1 bm.gumbel_temperature = [1]
    ∧ (∀ (cb : SupernetTemperatureCallback) (epoch : ℤ) (s' : Store) (p : ℚ × Store),
        bm.gumbel_temperature ∈ cb.temperature_variables →
        cb.on_epoch_begin epoch s' = some p →
        (bm.gumbel_dist.sample_params p.2).2 = [p.1]
        ∧ (p.1 ≠ 1 → (bm.gumbel_dist.sample_params p.2).2 ≠ s1 bm.gumbel_temperature)) := by
  obtain ⟨hbm, hs1⟩ := Prod.mk.injEq .. ▸ hb
  subst hbm
  have htemp : s1 fresh = [1] := by
    rw [← hs1]
    simp [show fresh ≠ fresh + 2 by simp, show fresh ≠ fresh + 1 by simp]
  refine ⟨rfl, fun s => rfl, htemp, ?_⟩
  intro cb epoch s' p hmem hp
  simp only [SupernetTemperatureCallback.on_epoch_begin] at hp
  split at hp
  · cases hp
  · obtain ⟨hp1, hp2⟩ := Prod.mk.injEq .. ▸ (Option.some.injEq .. ▸ hp)
    have hread : (GumbelDist.sample_params ⟨fresh + 2, fresh⟩ p.2).2 = [p.1] := by
      show p.2 fresh = [p.1]
      rw [← hp2, ← hp1]
      exact if_pos hmem
    refine ⟨hread, fun hne => ?_⟩
    rw [hread, htemp]
    simp [hne]

/-- C9: `build` writes the static cost vector exactly once — one
profiler value per candidate operation, computed from the
single-example shape `[1] + input_shape[1:]` and stored at that
operation's index — and no later forward pass or `train_step` mutates
it: the cost variable is not trainable (it is outside
`trainable_variables` and is no mixture's preference vector), hence
outside `concat_params`, and the optimizers update only `concat_params`
while a forward pass assigns no variable at all. -/
theorem cost_vector_set_once_and_frozen {α : Type} (m : MixedModuleTf α)
    (flops : String → List Nat → ℚ) (input_shape : List Nat) (fresh : Variable)
    (s0 : Store) (bm : BuiltMixedModule) (s1 : Store)
    (hb : m.build flops input_shape fresh s0 = (bm, s1))
    (nm : NasModel) (c : CompiledNasModel) (hc : nm.compile = some c)
    (h1 : bm.ops_cost_static ∉ nm.trainable_variables)
    (h2 : ∀ mod ∈ nm.mixed_submodules, mod.gumble_arch_params ≠ bm.ops_cost_static) :
    s1 bm.ops_cost_static = m.op_names.map (fun name => flops name (1 :: input_shape.tail))
    ∧ ∀ (st : TrainingState) (ops : List SupernetOp),
        (runOps c st ops).store bm.ops_cost_static = st.store bm.ops_cost_static := by
  obtain ⟨hbm, hs1⟩ := Prod.mk.injEq .. ▸ hb
  subst hbm
  constructor
  · rw [← hs1]
    simp [show fresh + 1 ≠ fresh + 2 by simp]
  · obtain ⟨hball, ha, hn, hcat, hlen⟩ := compile_eq_some hc
    have hnotin : (fresh + 1) ∉ c.concat_params := by
      rw [hcat]
      intro hmem
      rcases List.mem_append.1 hmem with hm | hm
      · rw [hn] at hm
        exact h1 (List.mem_filter.1 hm).1
      · rw [ha] at hm
        obtain ⟨mod, hmod, he⟩ := List.mem_map.1 hm
        exact h2 mod hmod he
    have hstep : ∀ (gradFn : Store → Variable → Val) (opt aopt : Optimizer) (sst : Store),
        (NasModel.train_step c gradFn opt aopt sst).store (fresh + 1) = sst (fresh + 1) := by
      intro gradFn opt aopt sst
      simp only [NasModel.train_step]
      rw [apply_gradients_at_unlisted]
      · rw [apply_gradients_at_unlisted]
        intro gv hgv he
        have : gv.2 ∈ c.non_arch_params := (List.of_mem_zip hgv).2
        exact hnotin (hcat ▸ List.mem_append.2 (Or.inl (he ▸ this)))
      · intro gv hgv he
        have : gv.2 ∈ c.arch_params := (List.of_mem_zip hgv).2
        exact hnotin (hcat ▸ List.mem_append.2 (Or.inr (he ▸ this)))
    intro st ops
    induction ops generalizing st with
    | nil => rfl
    | cons op rest ih =>
      show (runOps c (runOp c st op) rest).store (fresh + 1) = st.store (fresh + 1)
      rw [ih (runOp c st op)]
      cases op with
      | forward => rfl
      | step gradFn => exact hstep gradFn st.optimizer st.arch_optimizer st.store

/-- The elementwise row sum of nonempty uniform rows has the common row
length. -/
theorem sumRows_length (D : Nat) :
    ∀ rows : List (List ℚ), (∀ r ∈ rows, r.length = D) → rows ≠ [] →
      (sumRows rows).length = D := by
  intro rows
  induction rows with
  | nil => intro _ hne; exact absurd rfl hne
  | cons r rs ih =>
    intro hlen _
    cases rs with
    | nil =>
      show r.length = D
      exact hlen r (by simp)
    | cons r2 rs2 =>
      have h1 : (sumRows (r2 :: rs2)).length = D :=
        ih (fun x hx => hlen x (List.mem_cons_of_mem _ hx)) (by simp)
      show (List.zipWith (fun x y => x + y) r (sumRows (r2 :: rs2))).length = D
      rw [List.length_zipWith, h1, hlen r (by simp)]
      exact min_self D

/-- Entry `d` of the elementwise row sum is the sum of the rows' entries
`d`. -/
theorem sumRows_getD (D d : Nat) (hd : d < D) :
    ∀ rows : List (List ℚ), (∀ r ∈ rows, r.length = D) →
      (sumRows rows).getD d 0 = (rows.map (fun r => r.getD d 0)).sum := by
  intro rows
  induction rows with
  | nil =>
    intro _
    simp [sumRows]
  | cons r rs ih =>
    intro hlen
    cases rs with
    | nil =>
      show r.getD d 0 = ([r].map (fun r => r.getD d 0)).sum
      simp
    | cons r2 rs2 =>
      have hlen2 : ∀ x ∈ r2 :: rs2, x.length = D :=
        fun x hx => hlen x (List.mem_cons_of_mem _ hx)
      have hslen : (sumRows (r2 :: rs2)).length = D :=
        sumRows_length D (r2 :: rs2) hlen2 (by simp)
      have hrlen : r.length = D := hlen r (by simp)
      have hdz : d < (List.zipWith (fun x y => x + y) r (sumRows (r2 :: rs2))).length := by
        rw [List.length_zipWith, hrlen, hslen, min_self]
        exact hd
      show (List.zipWith (fun x y => x + y) r (sumRows (r2 :: rs2))).getD d 0 = _
      rw [List.getD_eq_getElem _ _ hdz, List.getElem_zipWith]
      rw [List.map_cons, List.sum_cons, ← ih hlen2]
      rw [List.getD_eq_getElem r 0 (by rw [hrlen]; exact hd),
        List.getD_eq_getElem _ 0 (by rw [hslen]; exact hd)]

/-- A list sum as a `Finset.range` sum over positions. -/
theorem list_sum_eq_sum_range (l : List ℚ) :
    l.sum = ∑ i ∈ Finset.range l.length, l.getD i 0 := by
  induction l with
  | nil => simp
  | cons x xs ih =>
    rw [List.sum_cons, List.length_cons, Finset.sum_range_succ']
    simp only [List.getD_cons_succ, List.getD_cons_zero]
    rw [← ih, add_comm]

/-- Entry `d` of the weighted row sum is the dot product of the weights
with the rows' entries `d`. -/
theorem sumRows_zipWith_scale (D d : Nat) (hd : d < D) (ws : List ℚ)
    (rows : List (List ℚ)) (hlen : ∀ r ∈ rows, r.length = D) :
    (sumRows (List.zipWith (fun wi row => row.map (fun x => wi * x)) ws rows)).getD d 0
      = ∑ i ∈ Finset.range (min ws.length rows.length),
          ws.getD i 0 * ((rows.getD i []).getD d 0) := by
  have hzw : ∀ x ∈ List.zipWith (fun wi row => row.map (fun x => wi * x)) ws rows,
      x.length = D := by
    intro x hx
    obtain ⟨j, hjl, rfl⟩ := List.mem_iff_getElem.1 hx
    rw [List.getElem_zipWith, List.length_map]
    exact hlen _ (List.getElem_mem _)
  rw [sumRows_getD D d hd _ hzw, list_sum_eq_sum_range, List.length_map,
    List.length_zipWith]
  apply Finset.sum_congr rfl
  intro i hi
  rw [Finset.mem_range] at hi
  have hiz : i < (List.zipWith (fun wi row => row.map (fun x => wi * x)) ws rows).length := by
    rw [List.length_zipWith]
    exact hi
  have hiw : i < ws.length := lt_of_lt_of_le hi (min_le_left _ _)
  have hir : i < rows.length := lt_of_lt_of_le hi (min_le_right _ _)
  have hrD : d < rows[i].length := by
    rw [hlen _ (List.getElem_mem _)]
    exact hd
  rw [List.getD_eq_getElem _ _ (by rw [List.length_map]; exact hiz)]
  simp only [List.getElem_map, List.getElem_zipWith]
  rw [List.getD_eq_getElem _ _ (by rw [List.length_map]; exact hrD)]
  simp only [List.getElem_map]
  rw [List.getD_eq_getElem ws 0 hiw, List.getD_eq_getElem rows [] hir,
    List.getD_eq_getElem _ 0 hrD]

/-- C3: a `MixedModuleTf` forward pass evaluates every candidate op on
the full input and returns, per example `b` and output entry `d`, the
weighted sum over the operation axis
`∑ i, w[b, i] * op_i(input)[b][d]`, the per-example per-op weight being
broadcast across all remaining output dimensions (flattened into the
entry index `d`). -/
theorem mixture_forward_weighted_sum (op_names : List String)
    (op_fun : String → Tensor2 → Tensor2) (ops_cost_static : List ℚ)
    (cost_loss_multiplier : ℚ) (w : List (List ℚ)) (inp : Tensor2) (D : Nat)
    (hw : w.length = inp.length)
    (hwrow : ∀ r ∈ w, r.length = op_names.length)
    (hob : ∀ name ∈ op_names, (op_fun name inp).length = inp.length)
    (hod : ∀ name ∈ op_names, ∀ row ∈ op_fun name inp, row.length = D) :
    (MixedModuleTf.call op_names op_fun ops_cost_static cost_loss_multiplier w inp).1.length
        = inp.length
    ∧ ∀ b, b < inp.length → ∀ d, d < D →
        ((MixedModuleTf.call op_names op_fun ops_cost_static cost_loss_multiplier
            w inp).1.getD b []).getD d 0
          = ∑ i ∈ Finset.range op_names.length,
              (w.getD b []).getD i 0
                * ((op_fun (op_names.getD i "") inp).getD b []).getD d 0 := by
  constructor
  · simp only [MixedModuleTf.call]
    rw [List.length_map, List.length_zipWith, hw]
    simp
  · intro b hb d hd
    simp only [MixedModuleTf.call]
    have hwb : b < w.length := by rw [hw]; exact hb
    have hblt : b < ((List.range inp.length).map (fun bb =>
        (op_names.map (fun name => op_fun name inp)).map (fun t => t.getD bb []))).length := by
      simp [hb]
    have hzb : b < (List.zipWith (fun wrow rows =>
        List.zipWith (fun wi row => row.map (fun x => wi * x)) wrow rows) w
        ((List.range inp.length).map (fun bb =>
          (op_names.map (fun name => op_fun name inp)).map (fun t => t.getD bb [])))).length := by
      rw [List.length_zipWith]
      exact lt_min hwb hblt
    have hgb : ((List.zipWith (fun wrow rows =>
        List.zipWith (fun wi row => row.map (fun x => wi * x)) wrow rows) w
        ((List.range inp.length).map (fun bb =>
          (op_names.map (fun name => op_fun name inp)).map
            (fun t => t.getD bb [])))).map sumRows).getD b []
        = sumRows (List.zipWith (fun wi row => row.map (fun x => wi * x)) w[b]
            ((op_names.map (fun name => op_fun name inp)).map (fun t => t.getD b []))) := by
      rw [List.getD_eq_getElem _ _ (by rw [List.length_map]; exact hzb)]
      simp only [List.getElem_map, List.getElem_zipWith, List.getElem_range]
    rw [hgb]
    have hrowsD : ∀ r ∈ (op_names.map (fun name => op_fun name inp)).map
        (fun t => t.getD b []), r.length = D := by
      intro r hr
      obtain ⟨t, ht, rfl⟩ := List.mem_map.1 hr
      obtain ⟨name, hname, rfl⟩ := List.mem_map.1 ht
      have hbl : b < (op_fun name inp).length := by
        rw [hob name hname]
        exact hb
      rw [List.getD_eq_getElem _ _ hbl]
      exact hod name hname _ (List.getElem_mem _)
    rw [sumRows_zipWith_scale D d hd _ _ hrowsD]
    have hwbl : w[b].length = op_names.length := hwrow _ (List.getElem_mem _)
    have hrl : ((op_names.map (fun name => op_fun name inp)).map
        (fun t => t.getD b [])).length = op_names.length := by
      simp
    rw [hwbl, hrl, min_self, List.getD_eq_getElem w [] hwb]
    apply Finset.sum_congr rfl
    intro i hi
    rw [Finset.mem_range] at hi
    have hi1 : i < ((op_names.map (fun name => op_fun name inp)).map
        (fun t => t.getD b [])).length := by
      rw [hrl]
      exact hi
    rw [List.getD_eq_getElem _ _ hi1]
    simp only [List.getElem_map]
    rw [List.getD_eq_getElem op_names "" hi]

/-- C4: the auxiliary loss a forward pass registers equals the batch mean
of `∑ i, cost[i] * w[b, i] * cost_loss_multiplier`; with multiplier 0 it
is exactly 0 whatever the cost vector holds; and it is registered, not
returned: the layer's output tensor does not depend on the cost vector or
the multiplier. -/
theorem mixture_cost_loss (op_names : List String) (op_fun : String → Tensor2 → Tensor2)
    (ops_cost_static : List ℚ) (cost_loss_multiplier : ℚ) (w : List (List ℚ)) (inp : Tensor2)
    (hwrow : ∀ r ∈ w, r.length = op_names.length)
    (hsl : ops_cost_static.length = op_names.length)
    (hB : 0 < w.length) :
    (MixedModuleTf.call op_names op_fun ops_cost_static cost_loss_multiplier w inp).2
        = (w.map (fun wrow => ∑ i ∈ Finset.range op_names.length,
            ops_cost_static.getD i 0 * wrow.getD i 0 * cost_loss_multiplier)).sum / w.length
    ∧ (cost_loss_multiplier = 0 →
        (MixedModuleTf.call op_names op_fun ops_cost_static cost_loss_multiplier w inp).2 = 0)
    ∧ (∀ (static' : List ℚ) (mult' : ℚ),
        (MixedModuleTf.call op_names op_fun static' mult' w inp).1
          = (MixedModuleTf.call op_names op_fun ops_cost_static cost_loss_multiplier
              w inp).1) := by
  have hmain : (MixedModuleTf.call op_names op_fun ops_cost_static cost_loss_multiplier
      w inp).2
      = (w.map (fun wrow => ∑ i ∈ Finset.range op_names.length,
          ops_cost_static.getD i 0 * wrow.getD i 0 * cost_loss_multiplier)).sum
        / w.length := by
    simp only [MixedModuleTf.call, listMean]
    rw [List.map_map]
    have hrow : ∀ wrow ∈ w,
        ((List.zipWith (fun c wi => c * wi) ops_cost_static wrow).map
          (fun x => x * cost_loss_multiplier)).sum
          = ∑ i ∈ Finset.range op_names.length,
              ops_cost_static.getD i 0 * wrow.getD i 0 * cost_loss_multiplier := by
      intro wrow hwmem
      rw [list_sum_eq_sum_range, List.length_map, List.length_zipWith, hsl,
        hwrow wrow hwmem, min_self]
      apply Finset.sum_congr rfl
      intro i hi
      rw [Finset.mem_range] at hi
      have hiz : i < (List.zipWith (fun c wi => c * wi) ops_cost_static wrow).length := by
        rw [List.length_zipWith, hsl, hwrow wrow hwmem, min_self]
        exact hi
      rw [List.getD_eq_getElem _ _ (by rw [List.length_map]; exact hiz)]
      simp only [List.getElem_map, List.getElem_zipWith]
      rw [List.getD_eq_getElem ops_cost_static 0 (by rw [hsl]; exact hi),
        List.getD_eq_getElem wrow 0 (by rw [hwrow wrow hwmem]; exact hi)]
    simp only [Function.comp_def]
    rw [List.map_congr_left (fun wrow hm => hrow wrow hm)]
    rw [List.length_map]
  refine ⟨hmain, ?_, fun static' mult' => rfl⟩
  intro h0
  rw [hmain, h0]
  simp

/-- Indexing a probability list over `enumerate` starting at `k` is
zipping with the list's suffix from `k`, when that suffix is long
enough. -/
theorem enumFrom_map_getD_eq_zip {β : Type} (d : β) :
    ∀ (names : List String) (k : ℕ) (probs : List β),
      names.length ≤ (probs.drop k).length →
      (List.enumFrom k names).map (fun p => (p.2, probs.getD p.1 d))
        = names.zip (probs.drop k) := by
  intro names
  induction names with
  | nil =>
    intro k probs _
    simp
  | cons a as ih =>
    intro k probs h
    have hk : k < probs.length := by
      rw [List.length_drop] at h
      simp only [List.length_cons] at h
      omega
    rw [List.enumFrom_cons, List.map_cons, List.drop_eq_getElem_cons hk,
      List.zip_cons_cons, ih (k + 1) probs (by rw [List.length_drop] at h ⊢; simp at h; omega)]
    rw [List.getD_eq_getElem probs d hk]

/-- Indexing a probability list over `enumerate(names)` is zipping when
the probabilities are at least as many as the names. -/
theorem enum_map_getD_eq_zip {β : Type} (d : β) (names : List String) (probs : List β)
    (h : names.length ≤ probs.length) :
    names.enum.map (fun p => (p.2, probs.getD p.1 d)) = names.zip probs := by
  have := enumFrom_map_getD_eq_zip d names 0 probs (by simpa using h)
  simpa using this

/-- Softmax probabilities sum to 1 on a nonempty vector. -/
theorem softmax_sum_eq_one (l : List ℝ) (hne : l ≠ []) : (softmax l).sum = 1 := by
  have hpos : 0 < (l.map Real.exp).sum := by
    apply List.sum_pos
    · intro x hx
      obtain ⟨y, _, rfl⟩ := List.mem_map.1 hx
      exact Real.exp_pos y
    · simpa using hne
  unfold softmax
  simp only [div_eq_mul_inv]
  rw [List.sum_map_mul_right]
  exact mul_inv_cancel₀ (ne_of_gt hpos)

/-- C7: at each epoch end the watcher returns the epoch tag, leaves the
store untouched, and reports, per discovered layer, the mapping from each
operation name to the softmax of the layer's current preference vector at
that name's index (which zips names with probabilities whenever the two
have matching lengths); the reported probabilities of any layer with a
nonempty preference vector sum to 1. Concretely, on the preference vector
`[1, 1, 4]` the first two probabilities are equal, the probabilities are
within `0.001` of `0.0452`, `0.0452`, `0.9096`, and they sum to 1. -/
theorem genotype_watcher_report :
    (∀ (w : SupernetArchWatcherCallback) (epoch : ℕ) (s : Store),
      (w.on_epoch_end epoch s).1.1 = epoch
      ∧ (w.on_epoch_end epoch s).2 = s
      ∧ ((∀ lay ∈ w.op_names.zip w.gumbel_arch_params, lay.1.length = (s lay.2).length) →
          (w.on_epoch_end epoch s).1.2
            = (w.op_names.zip w.gumbel_arch_params).map (fun lay =>
                lay.1.zip (softmax ((s lay.2).map (fun q => (Rat.cast q : ℝ))))))
      ∧ (∀ lay ∈ w.op_names.zip w.gumbel_arch_params, s lay.2 ≠ [] →
          (softmax ((s lay.2).map (fun q => (Rat.cast q : ℝ)))).sum = 1))
    ∧ ((softmax [(1 : ℝ), 1, 4]).getD 0 0 = (softmax [(1 : ℝ), 1, 4]).getD 1 0
        ∧ |(softmax [(1 : ℝ), 1, 4]).getD 0 0 - 0.0452| < 1/1000
        ∧ |(softmax [(1 : ℝ), 1, 4]).getD 2 0 - 0.9096| < 1/1000
        ∧ (softmax [(1 : ℝ), 1, 4]).sum = 1) := by
  have h1 := Real.exp_one_gt_d9
  have h2 := Real.exp_one_lt_d9
  have he4 : Real.exp 4 = Real.exp 1 ^ 4 := by
    rw [← Real.exp_nat_mul]
    norm_num
  have h4lo : (54.59 : ℝ) < Real.exp 4 := by
    rw [he4]
    have hp : (2.7182818283 : ℝ) ^ 4 < Real.exp 1 ^ 4 :=
      pow_lt_pow_left₀ h1 (by norm_num) (by norm_num)
    have hc : (54.59 : ℝ) < 2.7182818283 ^ 4 := by norm_num
    linarith
  have h4hi : Real.exp 4 < 54.61 := by
    rw [he4]
    have hp : Real.exp 1 ^ 4 < (2.7182818286 : ℝ) ^ 4 :=
      pow_lt_pow_left₀ h2 (Real.exp_pos 1).le (by norm_num)
    have hc : (2.7182818286 : ℝ) ^ 4 < 54.61 := by norm_num
    linarith
  constructor
  · intro w epoch s
    refine ⟨rfl, rfl, ?_, ?_⟩
    · intro hlen
      simp only [SupernetArchWatcherCallback.on_epoch_end]
      apply List.map_congr_left
      intro lay hlay
      apply enum_map_getD_eq_zip
      rw [hlen lay hlay]
      simp [softmax]
    · intro lay _ hne
      apply softmax_sum_eq_one
      simpa using hne
  · have hS : (([(1 : ℝ), 1, 4].map Real.exp).sum)
        = Real.exp 1 + (Real.exp 1 + (Real.exp 4 + 0)) := by
      simp
    have hSpos : 0 < Real.exp 1 + (Real.exp 1 + (Real.exp 4 + 0)) := by
      have := Real.exp_pos 1
      have := Real.exp_pos 4
      linarith
    refine ⟨rfl, ?_, ?_, softmax_sum_eq_one _ (by simp)⟩
    · show |Real.exp 1 / ([(1 : ℝ), 1, 4].map Real.exp).sum - 0.0452| < 1/1000
      rw [hS, abs_sub_lt_iff]
      constructor
      · rw [sub_lt_iff_lt_add, div_lt_iff₀ hSpos]
        nlinarith
      · rw [sub_lt_iff_lt_add]
        rw [show (0.0452 : ℝ) = 1/1000 + 0.0442 by norm_num]
        have : (0.0442 : ℝ) < Real.exp 1 / (Real.exp 1 + (Real.exp 1 + (Real.exp 4 + 0))) := by
          rw [lt_div_iff₀ hSpos]
          nlinarith
        linarith
    · show |Real.exp 4 / ([(1 : ℝ), 1, 4].map Real.exp).sum - 0.9096| < 1/1000
      rw [hS, abs_sub_lt_iff]
      constructor
      · rw [sub_lt_iff_lt_add, div_lt_iff₀ hSpos]
        nlinarith
      · rw [sub_lt_iff_lt_add]
        rw [show (0.9096 : ℝ) = 1/1000 + 0.9086 by norm_num]
        have : (0.9086 : ℝ) < Real.exp 4 / (Real.exp 1 + (Real.exp 1 + (Real.exp 4 + 0))) := by
          rw [lt_div_iff₀ hSpos]
          nlinarith
        linarith

/-- The key list of a Python-dict insertion: unchanged when the key is
present, extended by it when not. -/
theorem dictInsert_keys {α : Type} (d : List (String × α)) (k : String) (v : α) :
    (dictInsert d k v).map Prod.fst =
      if k ∈ d.map Prod.fst then d.map Prod.fst else d.map Prod.fst ++ [k] := by
  unfold dictInsert
  by_cases h : d.any (fun p => p.1 == k) = true
  · have hmem : k ∈ d.map Prod.fst := by
      rw [List.any_eq_true] at h
      obtain ⟨p, hp, he⟩ := h
      rw [beq_iff_eq] at he
      exact he ▸ List.mem_map.2 ⟨p, hp, rfl⟩
    rw [if_pos h, if_pos hmem, List.map_map]
    apply List.map_congr_left
    intro p _
    by_cases hk : p.1 = k
    · simp [hk]
    · simp [hk]
  · have hmem : k ∉ d.map Prod.fst := by
      intro hk
      obtain ⟨p, hp, he⟩ := List.mem_map.1 hk
      exact h (List.any_eq_true.2 ⟨p, hp, beq_iff_eq.2 he⟩)
    rw [if_neg h, if_neg hmem, List.map_append]
    rfl

/-- Folding Python-dict insertions keeps the key list duplicate-free and
accumulates exactly the set of inserted keys. -/
theorem dictOfPairs_keys_aux {α : Type} :
    ∀ (pairs : List (String × α)) (d : List (String × α)),
      (d.map Prod.fst).Nodup →
      ((pairs.foldl (fun acc p => dictInsert acc p.1 p.2) d).map Prod.fst).Nodup
      ∧ ((pairs.foldl (fun acc p => dictInsert acc p.1 p.2) d).map Prod.fst).toFinset
          = (d.map Prod.fst).toFinset ∪ (pairs.map Prod.fst).toFinset := by
  intro pairs
  induction pairs with
  | nil =>
    intro d hd
    simp [hd]
  | cons p rest ih =>
    intro d hd
    rw [List.foldl_cons]
    have hk := dictInsert_keys d p.1 p.2
    by_cases hmem : p.1 ∈ d.map Prod.fst
    · rw [if_pos hmem] at hk
      obtain ⟨h1, h2⟩ := ih (dictInsert d p.1 p.2) (hk ▸ hd)
      refine ⟨h1, ?_⟩
      rw [h2, hk]
      have hins : p.1 ∈ (d.map Prod.fst).toFinset := List.mem_toFinset.2 hmem
      ext x
      simp only [Finset.mem_union, List.mem_toFinset, List.map_cons, List.toFinset_cons,
        Finset.mem_insert]
      constructor
      · rintro (hx | hx)
        · exact Or.inl hx
        · exact Or.inr (Or.inr hx)
      · rintro (hx | hx | hx)
        · exact Or.inl hx
        · subst hx
          exact Or.inl hmem
        · exact Or.inr hx
    · rw [if_neg hmem] at hk
      have hnd : ((dictInsert d p.1 p.2).map Prod.fst).Nodup := by
        rw [hk, List.nodup_append]
        exact ⟨hd, List.nodup_singleton p.1, by simpa using hmem⟩
      obtain ⟨h1, h2⟩ := ih (dictInsert d p.1 p.2) hnd
      refine ⟨h1, ?_⟩
      rw [h2, hk]
      ext x
      simp only [Finset.mem_union, List.mem_toFinset, List.mem_append, List.mem_singleton,
        List.map_cons, List.toFinset_cons, Finset.mem_insert]
      tauto

/-- `dictOfPairs` has duplicate-free keys and exactly one entry per
distinct key of the bindings. -/
theorem dictOfPairs_keys {α : Type} (pairs : List (String × α)) :
    ((dictOfPairs pairs).map Prod.fst).Nodup
    ∧ (dictOfPairs pairs).length = (pairs.map Prod.fst).dedup.length := by
  obtain ⟨h1, h2⟩ := dictOfPairs_keys_aux pairs [] (by simp)
  have h1a : ((dictOfPairs pairs).map Prod.fst).Nodup := h1
  have h2a : ((dictOfPairs pairs).map Prod.fst).toFinset
      = (([] : List (String × α)).map Prod.fst).toFinset ∪ (pairs.map Prod.fst).toFinset := h2
  refine ⟨h1a, ?_⟩
  calc (dictOfPairs pairs).length
      = ((dictOfPairs pairs).map Prod.fst).length := (List.length_map _ _).symm
    _ = ((dictOfPairs pairs).map Prod.fst).dedup.length := by
        rw [List.dedup_eq_self.2 h1a]
    _ = ((dictOfPairs pairs).map Prod.fst).toFinset.card := (List.card_toFinset _).symm
    _ = (pairs.map Prod.fst).toFinset.card := by
        rw [h2a]
        simp
    _ = (pairs.map Prod.fst).dedup.length := List.card_toFinset _

/-- C8 amended: construction fails exactly when the operation dict ends
up with fewer than 2 entries. A list argument of `n` ops is auto-named
`"0" .. "n-1"` and succeeds iff `n ≥ 2`; a dict argument succeeds iff its
bindings carry at least 2 distinct names — duplicate names are not
rejected but silently collapsed (the later binding wins), so ≥ 2 uniquely
named operations always construct, and the stored `op_names` are always
duplicate-free. -/
theorem mixture_init_min_two_distinct :
    (∀ {α : Type} (l : List α) (mult : ℚ),
        (MixedModuleTf.init (OpsArg.ofList l) mult).isSome = true ↔ 2 ≤ l.length)
    ∧ (∀ {α : Type} (pairs : List (String × α)) (mult : ℚ),
        (MixedModuleTf.init (OpsArg.ofDict pairs) mult).isSome = true
          ↔ 2 ≤ (pairs.map Prod.fst).dedup.length)
    ∧ (∀ {α : Type} (pairs : List (String × α)) (mult : ℚ),
        (pairs.map Prod.fst).Nodup → 2 ≤ pairs.length →
        (MixedModuleTf.init (OpsArg.ofDict pairs) mult).isSome = true)
    ∧ (∀ {α : Type} (pairs : List (String × α)) (mult : ℚ) (t : MixedModuleTf α),
        MixedModuleTf.init (OpsArg.ofDict pairs) mult = some t → t.op_names.Nodup) := by
  have hdict : ∀ {α : Type} (pairs : List (String × α)) (mult : ℚ),
      (MixedModuleTf.init (OpsArg.ofDict pairs) mult).isSome = true
        ↔ 2 ≤ (pairs.map Prod.fst).dedup.length := by
    intro α pairs mult
    obtain ⟨_, hlen⟩ := dictOfPairs_keys pairs
    simp only [MixedModuleTf.init]
    split
    · simp only [Option.isSome_some, true_iff]
      omega
    · simp only [Option.isSome_none, Bool.false_eq_true, false_iff]
      omega
  refine ⟨?_, hdict, ?_, ?_⟩
  · intro α l mult
    simp only [MixedModuleTf.init]
    split
    · simp only [Option.isSome_some, true_iff]
      rename_i h
      rw [List.length_map, List.enum_length] at h
      omega
    · simp only [Option.isSome_none, Bool.false_eq_true, false_iff]
      rename_i h
      rw [List.length_map, List.enum_length] at h
      omega
  · intro α pairs mult hnd hlen
    rw [hdict pairs mult, List.dedup_eq_self.2 hnd, List.length_map]
    exact hlen
  · intro α pairs mult t ht
    obtain ⟨hnd, _⟩ := dictOfPairs_keys (α := α) pairs
    simp only [MixedModuleTf.init] at ht
    split at ht
    · cases ht
      exact hnd
    · cases ht

/-- Witness for C1 on the concrete two-mixture model: both optimizer
counters advance by one and the arch parameter `10` receives the arch
optimizer's update from its own gradient. -/
theorem train_step_gradient_routing_checked :
    (NasModel.train_step exCompiled exGradFn exOptimizer exArchOptimizer
        exStore).optimizer.iterations = 1
    ∧ (NasModel.train_step exCompiled exGradFn exOptimizer exArchOptimizer
        exStore).arch_optimizer.iterations = 8
    ∧ (NasModel.train_step exCompiled exGradFn exOptimizer exArchOptimizer
        exStore).store 10 = exArchOptimizer.rule (exStore 10) (exGradFn exStore 10) := by
  have h := train_step_gradient_routing exModel exCompiled (by decide) exGradFn
    exOptimizer exArchOptimizer exStore
  exact ⟨h.2.2.2.1, h.2.2.2.2.1, h.2.2.2.2.2.2 10 (by decide)⟩

/-- Witness for C2 on the concrete two-mixture model. -/
theorem compile_partitions_trainables_checked :
    exCompiled.arch_params = [10, 11]
    ∧ (10 ∈ exCompiled.non_arch_params
        ↔ (10 ∈ exModel.trainable_variables ∧ 10 ∉ exCompiled.arch_params)) := by
  have h := compile_partitions_trainables.1 exModel exCompiled (by decide)
  exact ⟨h.1.trans (by decide), h.2.1 10⟩

/-- Witness for C3 on a concrete two-op layer and a two-example batch. -/
theorem mixture_forward_weighted_sum_checked :
    ((MixedModuleTf.call ["a", "b"] exOpFun [5, 7] 1 [[1/2, 1/2], [1, 0]]
        [[1], [2]]).1.getD 0 []).getD 0 0 = 5/2 := by
  have h := mixture_forward_weighted_sum ["a", "b"] exOpFun [5, 7] 1
    [[1/2, 1/2], [1, 0]] [[1], [2]] 1 (by decide) (by decide) (by decide) (by decide)
  have hba : ("b" : String) ≠ "a" := by decide
  exact (h.2 0 (by decide) 0 (by decide)).trans
    (by norm_num [Finset.sum_range_succ, exOpFun, if_neg hba])

/-- Witness for C4 on the same concrete layer: the registered cost loss
is the batch mean of the weighted static costs, and is exactly 0 when the
multiplier is 0. -/
theorem mixture_cost_loss_checked :
    (MixedModuleTf.call ["a", "b"] exOpFun [5, 7] 2 [[1/2, 1/2], [1, 0]] [[1], [2]]).2 = 11
    ∧ (MixedModuleTf.call ["a", "b"] exOpFun [5, 7] 0 [[1/2, 1/2], [1, 0]] [[1], [2]]).2 = 0 := by
  have h := mixture_cost_loss ["a", "b"] exOpFun [5, 7] 2 [[1/2, 1/2], [1, 0]] [[1], [2]]
    (by decide) (by decide) (by decide)
  have h0 := mixture_cost_loss ["a", "b"] exOpFun [5, 7] 0 [[1/2, 1/2], [1, 0]] [[1], [2]]
    (by decide) (by decide) (by decide)
  exact ⟨h.1.trans (by norm_num [Finset.sum_range_succ]), h0.2.1 rfl⟩

/-- Witness for C5: the spec's example schedule
(`start_epoch=5, final_epoch=15, start_temp=5, end_temp=0.1`) yields
temperatures 5, 5, 2.55, 0.1, 0.1 at epochs 0, 5, 10, 15, 20, the epoch
hook succeeds, and the callback discovered both temperature variables. -/
theorem temperature_schedule_correct_checked :
    cb5.temperature_at 0 = 5 ∧ cb5.temperature_at 5 = 5 ∧ cb5.temperature_at 10 = 51/20
    ∧ cb5.temperature_at 15 = 1/10 ∧ cb5.temperature_at 20 = 1/10
    ∧ (cb5.on_epoch_begin 10 exStore).isSome = true
    ∧ cb5.temperature_variables
        = exModel.mixed_submodules.map (fun mod => mod.gumbel_temperature) := by
  have h := temperature_schedule_correct.2 cb5 10 exStore (by decide) (by norm_num [cb5])
  have hInit := temperature_schedule_correct.1 exModel 5 15 5 (1/10) cb5
    (by norm_num [SupernetTemperatureCallback.init, exModel, exMixed1, exMixed2, cb5])
  refine ⟨by norm_num [SupernetTemperatureCallback.temperature_at, cb5, max_def],
    by norm_num [SupernetTemperatureCallback.temperature_at, cb5, max_def],
    by norm_num [SupernetTemperatureCallback.temperature_at, cb5, max_def],
    by norm_num [SupernetTemperatureCallback.temperature_at, cb5, max_def],
    by norm_num [SupernetTemperatureCallback.temperature_at, cb5, max_def], ?_, hInit⟩
  rw [h.1]
  rfl

/-- Witness for C6 on a concretely built layer (`fresh = 30`): the
distribution holds variables `32` (preferences) and `30` (temperature),
and sampling against a store where variable `30` holds `[7]` reads `[7]`. -/
theorem gumbel_dist_reads_current_values_checked :
    (exMixedModule.build exFlops [4, 3] 30 exStore).1.gumbel_dist = ⟨32, 30⟩
    ∧ ((exMixedModule.build exFlops [4, 3] 30 exStore).1.gumbel_dist.sample_params
        (fun v => if v = 30 then [7] else [])).2 = [7] := by
  have h := gumbel_dist_reads_current_values exMixedModule exFlops [4, 3] 30 exStore
    (exMixedModule.build exFlops [4, 3] 30 exStore).1
    (exMixedModule.build exFlops [4, 3] 30 exStore).2 rfl
  refine ⟨h.1.trans (by rfl), ?_⟩
  have h2 := congrArg Prod.snd (h.2.1 (fun v => if v = 30 then [7] else []))
  exact h2.trans (by rfl)

/-- Witness for C7 on a concrete one-layer watcher with preference vector
`[1, 2]`. -/
theorem genotype_watcher_report_checked :
    (exWatcher.on_epoch_end 3 exStore2).1.1 = 3
    ∧ (exWatcher.on_epoch_end 3 exStore2).2 = exStore2
    ∧ (softmax ((exStore2 22).map (fun q => (Rat.cast q : ℝ)))).sum = 1 := by
  have h := genotype_watcher_report.1 exWatcher 3 exStore2
  exact ⟨h.1, h.2.1, h.2.2.2 (["x", "y"], 22) (by decide) (by decide)⟩

/-- Witness for C8's amended statement: the duplicated bindings still
construct (2 distinct names among 3 bindings), and a 3-op list argument
constructs. -/
theorem mixture_init_min_two_distinct_checked :
    (MixedModuleTf.init (OpsArg.ofDict [("x", 1), ("y", 2)]) 0).isSome = true
    ∧ (MixedModuleTf.init (OpsArg.ofList [10, 20, 30]) 0).isSome = true := by
  exact ⟨mixture_init_min_two_distinct.2.2.1 [("x", 1), ("y", 2)] 0 (by decide) (by decide),
    (mixture_init_min_two_distinct.1 [10, 20, 30] 0).2 (by decide)⟩

/-- Witness for C9 on a concretely built layer (`fresh = 30`, so the cost
variable is `31`): the cost vector holds one FLOPs value per op computed
from the single-example shape `[1, 3]`, and a forward pass followed by a
train step leaves it unchanged. -/
theorem cost_vector_set_once_and_frozen_checked :
    (exMixedModule.build exFlops [4, 3] 30 exStore).2 31 = [3, 3]
    ∧ (runOps exCompiled exTrainState
        [SupernetOp.forward, SupernetOp.step exGradFn]).store 31
      = exTrainState.store 31 := by
  have h := cost_vector_set_once_and_frozen exMixedModule exFlops [4, 3] 30 exStore
    (exMixedModule.build exFlops [4, 3] 30 exStore).1
    (exMixedModule.build exFlops [4, 3] 30 exStore).2 rfl
    exModel exCompiled (by decide) (by decide) (by decide)
  exact ⟨h.1.trans (by norm_num [exMixedModule, exFlops]),
    h.2 exTrainState [SupernetOp.forward, SupernetOp.step exGradFn]⟩

/-- Witness for C10: construction with `final_epoch == start_epoch == 3`
succeeds, and the resulting callback's epoch hook fails at epoch 0. -/
theorem schedule_degenerate_division_checked :
    (SupernetTemperatureCallback.init exModel 3 3 5 (1/10)).isSome = true
    ∧ exDegenerateCb.on_epoch_begin 0 exStore = none := by
  refine ⟨(schedule_degenerate_division.1 exModel 3 3 5 (1/10)).2 ⟨by decide, by norm_num⟩, ?_⟩
  exact schedule_degenerate_division.2 exModel 3 5 (1/10) exDegenerateCb
    (by norm_num [SupernetTemperatureCallback.init, exModel, exMixed1, exMixed2,
      exDegenerateCb]) 0 exStore

end ArchSearch
